import Mathlib

/-!
Verification development for the quill client's upload/processing tracker
(`UploadPDFScreen.js`).  The definitions below are a shallow embedding of the
React state of the upload screen, its `uploadFiles` handler, and the 2-second
status-polling `useEffect`.

State embedding notes:
* React `useState` fields become the fields of `ScreenState`.
* The JS `Map` held in `processingStatuses` becomes an insertion-ordered
  association list with `Map.set`/`Map.get` semantics (`mapSet`/`statusLookup`).
* The backend is a pair of response functions (`Backend`); a network error of
  an axios call is an `Except.error`.
* One invocation of the `setInterval` callback is `tick`.  Its JS body wraps
  the whole `for (const upload of activeUploads)` loop in a single
  `try { ... } catch { console.error }`, so a throw during any job's fetch
  aborts the remainder of the loop but keeps all state mutations performed
  before the throw; `tickStep` returns `Except.error` to model the throw and
  `tickLoopGo` stops at the first thrown step.
* Ghost traces (`PollTrace`, `UploadTrace`) record the observable side
  effects: which `/upload_status/` GETs were issued, which `/final_chunks/`
  responses were delivered, which `Alert.alert` calls happened, which
  aggregate progress values were reported, and the order of upload requests.
-/

namespace Quill

/-- Wire shape of one processed chunk (`ChunkResponse` interface in the
source).  `confidence` is kept as a rational number. -/
structure ChunkResponse where
  chunk_id : String
  text_snippet : String
  summary : String
  socratic_questions : List String
  filename : String
  page_number : Int
  confidence : Rat
deriving DecidableEq, Repr

/-- Wire shape of the backend's acknowledgement of one uploaded file
(`UploadResponse` interface in the source).  `status` is a plain string in
the source (TypeScript `string`), so it is a `String` here too. -/
structure UploadResponse where
  upload_id : String
  status : String
  message : String
  total_chunks : Nat
  estimated_time : String
  preview_chunks : List ChunkResponse
  file_type : String
  supported_operations : List String
deriving DecidableEq, Repr

/-- The status union `"PROCESSING" | "COMPLETED" | "FAILED"` of the
`ProcessingStatus` interface. -/
inductive JobStatus where
  | PROCESSING
  | COMPLETED
  | FAILED
deriving DecidableEq, Repr

/-- Wire shape of one `/upload_status/` response (`ProcessingStatus`
interface in the source). -/
structure ProcessingStatus where
  upload_id : String
  status : JobStatus
  progress : Int
  message : String
  processing_stage : String
deriving DecidableEq, Repr

/-- One `Alert.alert(title, message)` call. -/
abbrev Alert := String × String

/-- The component's `useState` fields that the claims are about.  The
selected `files` list is passed to `runUpload` as an argument instead of
being a state field, since no claim concerns the selection list itself. -/
structure ScreenState where
  uploading : Bool
  uploadProgress : Rat
  uploadSuccess : Option Bool
  processedChunks : List ChunkResponse
  activeUploads : List UploadResponse
  processingStatuses : List (String × ProcessingStatus)
deriving DecidableEq, Repr

/-- JS `Map.prototype.set`: overwrite in place when the key is present,
append otherwise (insertion order preserved). -/
def mapSet (m : List (String × ProcessingStatus)) (k : String)
    (v : ProcessingStatus) : List (String × ProcessingStatus) :=
  if m.any (fun p => p.1 == k) then
    m.map (fun p => if p.1 == k then (k, v) else p)
  else
    m ++ [(k, v)]

/-- JS `Map.prototype.get` (as an `Option`). -/
def statusLookup (m : List (String × ProcessingStatus)) (k : String) :
    Option ProcessingStatus :=
  (m.find? (fun p => p.1 == k)).map (fun p => p.2)

/-- `prev.filter(u => u.upload_id !== upload.upload_id)` from the poller. -/
def removeUpload (l : List UploadResponse) (uid : String) :
    List UploadResponse :=
  l.filter (fun u => u.upload_id != uid)

/-- The two backend endpoints the poller calls.  A network failure of the
axios GET is `Except.error` carrying the logged error text. -/
structure Backend where
  statusFetch : String → Except String ProcessingStatus
  chunksFetch : String → Except String (List ChunkResponse)

/-- Ghost trace of one poller tick (or a sequence of ticks):
`statusFetches` records each `/upload_status/{id}` GET issued,
`chunkFetches` records each `/final_chunks/{id}` response delivered
(a chunk fetch whose GET throws delivers nothing and is retried on a later
tick), `alerts` records `Alert.alert` calls. -/
structure PollTrace where
  statusFetches : List String
  chunkFetches : List String
  alerts : List Alert
deriving DecidableEq, Repr

/-- Empty poll trace. -/
def PollTrace.empty : PollTrace := ⟨[], [], []⟩

/-- Concatenation of poll traces. -/
def PollTrace.append (a b : PollTrace) : PollTrace :=
  ⟨a.statusFetches ++ b.statusFetches,
   a.chunkFetches ++ b.chunkFetches,
   a.alerts ++ b.alerts⟩

/-- Body of the poll loop for one `upload` of the `activeUploads` snapshot
(source lines 67–88).  Returns `Except.error` when an awaited GET throws:
the payload is the state and trace accumulated up to the throw, which the
surrounding `catch` keeps. -/
def tickStep (b : Backend) (u : UploadResponse) (s : ScreenState) :
    Except (ScreenState × PollTrace) (ScreenState × PollTrace) :=
  if u.status = "PROCESSING" then
    match b.statusFetch u.upload_id with
    | .error _ => .error (s, ⟨[u.upload_id], [], []⟩)
    | .ok st =>
      let s1 : ScreenState :=
        { s with processingStatuses := mapSet s.processingStatuses u.upload_id st }
      match st.status with
      | .COMPLETED =>
        match b.chunksFetch u.upload_id with
        | .error _ => .error (s1, ⟨[u.upload_id], [], []⟩)
        | .ok cs =>
          .ok ({ s1 with
                  processedChunks := s1.processedChunks ++ cs,
                  activeUploads := removeUpload s1.activeUploads u.upload_id,
                  uploadSuccess := some true },
               ⟨[u.upload_id], [u.upload_id], []⟩)
      | .FAILED =>
        .ok ({ s1 with activeUploads := removeUpload s1.activeUploads u.upload_id },
             ⟨[u.upload_id], [], [("Processing Failed", st.message)]⟩)
      | .PROCESSING => .ok (s1, ⟨[u.upload_id], [], []⟩)
  else
    .ok (s, PollTrace.empty)

/-- The `for (const upload of activeUploads)` loop of one tick, iterating
the snapshot taken at tick start while threading the live state.  A thrown
step ends the loop (the `catch` only logs). -/
def tickLoopGo (b : Backend) : List UploadResponse → ScreenState →
    ScreenState × PollTrace
  | [], s => (s, PollTrace.empty)
  | u :: rest, s =>
    match tickStep b u s with
    | .error p => p
    | .ok (s', tr) =>
      let p := tickLoopGo b rest s'
      (p.1, tr.append p.2)

/-- One invocation of the 2-second `setInterval` callback.  The interval is
only armed when `activeUploads` is non-empty (source line 63), so an empty
active set means no tick body runs. -/
def tick (b : Backend) (s : ScreenState) : ScreenState × PollTrace :=
  if s.activeUploads.isEmpty then (s, PollTrace.empty)
  else tickLoopGo b s.activeUploads s

/-- A sequence of ticks; each tick sees the backend behavior of its moment
(`bs` lists the backend per tick, letting responses change over time). -/
def runTicks : List Backend → ScreenState → ScreenState × PollTrace
  | [], s => (s, PollTrace.empty)
  | b :: bs, s =>
    let p := tick b s
    let q := runTicks bs p.1
    (q.1, p.2.append q.2)

/-- `if (activeUploads.length === 0) return;` — the effect arms the interval
exactly when the active set is non-empty. -/
def pollerArmed (s : ScreenState) : Bool :=
  !s.activeUploads.isEmpty

/-- Decides whether the loop body for job `u` runs to completion without a
throw; this depends only on the backend and the job, not on the state. -/
def stepCommits (b : Backend) (u : UploadResponse) : Bool :=
  if u.status = "PROCESSING" then
    match b.statusFetch u.upload_id with
    | .error _ => false
    | .ok st =>
      match st.status with
      | .COMPLETED =>
        match b.chunksFetch u.upload_id with
        | .error _ => false
        | .ok _ => true
      | _ => true
  else
    true

/-- One axios `onUploadProgress` event: bytes loaded so far and the total
(`progressEvent.total` may be absent). -/
structure ProgressEvent where
  loaded : Nat
  total : Option Nat
deriving DecidableEq, Repr

/-- The transmission behavior of one selected file: the progress events its
request fires, and either the backend's `UploadResponse` or a thrown axios
error whose `err.response?.data?.detail` is the optional detail string. -/
structure FileTransmission where
  events : List ProgressEvent
  result : Except (Option String) UploadResponse
deriving Repr

/-- JS `progressEvent.total || 1`: a missing or zero total falls back to 1. -/
def jsOrOne : Option Nat → Rat
  | some t => if t = 0 then 1 else (t : Rat)
  | none => 1

/-- Source lines 161–163: the aggregate progress value reported for one
progress event of file `i` (0-based) out of `n`:
`(progressEvent.loaded / (progressEvent.total || 1)) * ((i + 1) / files.length)`. -/
def fileProgress (n i : Nat) (e : ProgressEvent) : Rat :=
  ((e.loaded : Rat) / jsOrOne e.total) * (((i : Rat) + 1) / (n : Rat))

/-- Requests of the upload loop: `reqStart i` is the moment the multipart
POST for file `i` is issued, `reqEnd i` the moment its response arrives. -/
inductive UploadEvent where
  | reqStart (i : Nat)
  | reqEnd (i : Nat)
deriving DecidableEq, Repr

/-- Ghost trace of one `uploadFiles` run. -/
structure UploadTrace where
  progressValues : List Rat
  events : List UploadEvent
  alerts : List Alert
deriving DecidableEq, Repr

/-- The `Alert.alert("Upload Started!", ...)` call of source lines 181–184. -/
def uploadStartedAlert (nFiles totalChunks : Nat) : Alert :=
  ("Upload Started!",
   "Successfully initiated processing of " ++ toString nFiles ++
   " file(s). Background processing will generate " ++ toString totalChunks ++
   " total chunks with Socratic questions. You can track progress below.")

/-- The `Alert.alert("Upload Error", ...)` call of source lines 190–192:
the backend detail when present, else the generic transport message. -/
def uploadErrorAlert (detail : Option String) : Alert :=
  ("Upload Error", detail.getD "Failed to upload and process file")

/-- Source lines 133–137: the state resets performed at the start of
`uploadFiles`, before any request is sent.  `processingStatuses` is not
reset here (only `pickDocument` resets it). -/
def uploadResetState (s : ScreenState) : ScreenState :=
  { s with
      uploading := true,
      uploadProgress := 0,
      uploadSuccess := none,
      processedChunks := [],
      activeUploads := [] }

/-- During file `i`'s request every `onUploadProgress` event calls
`setUploadProgress`, so after the request the state's `uploadProgress` is
the last value reported for that file (unchanged if no event fired). -/
def progressState (n i : Nat) (f : FileTransmission) (s : ScreenState) :
    ScreenState :=
  match (f.events.map (fileProgress n i)).getLast? with
  | some v => { s with uploadProgress := v }
  | none => s

/-- The `for (let i = 0; ...)` loop of `uploadFiles` (source lines 143–175)
plus its success epilogue (lines 177–184) and its `catch` (lines 185–193).
`n` is `files.length`, `i` the current index, `newUploads` the accumulator.
On success of file `i` its preview chunks are appended immediately; on a
throw the loop aborts, `uploading`/`uploadSuccess` are set and the error
alert fires — `setActiveUploads(newUploads)` only happens after the whole
batch succeeded. -/
def uploadGo (n : Nat) : List FileTransmission → Nat → List UploadResponse →
    ScreenState → ScreenState × UploadTrace
  | [], _, newUploads, s =>
    ({ s with activeUploads := newUploads, uploading := false },
     ⟨[], [],
      [uploadStartedAlert n (newUploads.foldl (fun acc u => acc + u.total_chunks) 0)]⟩)
  | f :: rest, i, newUploads, s =>
    let s1 := progressState n i f s
    match f.result with
    | .error detail =>
      ({ s1 with uploading := false, uploadSuccess := some false },
       ⟨f.events.map (fileProgress n i), [.reqStart i], [uploadErrorAlert detail]⟩)
    | .ok r =>
      let s2 : ScreenState :=
        { s1 with processedChunks := s1.processedChunks ++ r.preview_chunks }
      let p := uploadGo n rest (i + 1) (newUploads ++ [r]) s2
      (p.1, ⟨(f.events.map (fileProgress n i)) ++ p.2.progressValues,
             .reqStart i :: .reqEnd i :: p.2.events,
             p.2.alerts⟩)

/-- The whole `uploadFiles` handler (source lines 127–194).  An empty
selection only alerts; otherwise the state is reset and the files are
transmitted strictly sequentially. -/
def runUpload (files : List FileTransmission) (s : ScreenState) :
    ScreenState × UploadTrace :=
  if files.isEmpty then
    (s, ⟨[], [], [("No File", "Please select at least one file.")]⟩)
  else
    uploadGo files.length files 0 [] (uploadResetState s)

/-- The `upload_id`s of a job list. -/
def uploadIds (l : List UploadResponse) : List String :=
  l.map (fun u => u.upload_id)

/-- The responses of the successfully transmitted files, in order. -/
def okResponses (l : List FileTransmission) : List UploadResponse :=
  l.filterMap (fun g =>
    match g.result with
    | .ok r => some r
    | .error _ => none)

/-- The preview chunks contributed by one transmission (none if it threw). -/
def previewsOf (g : FileTransmission) : List ChunkResponse :=
  match g.result with
  | .ok r => r.preview_chunks
  | .error _ => []

/-- The state right after file `i`'s request succeeded with response `r`:
progress updated per `progressState`, and the response's preview chunks
appended to the aggregate (source line 174). -/
def afterFileState (n i : Nat) (f : FileTransmission) (r : UploadResponse)
    (s : ScreenState) : ScreenState :=
  { progressState n i f s with
    processedChunks := (progressState n i f s).processedChunks ++ r.preview_chunks }

/-- Whether a transmission succeeded (its result is `Except.ok`). -/
def transmits (g : FileTransmission) : Bool :=
  match g.result with
  | .ok _ => true
  | .error _ => false

/-- Concrete chunk used by witnesses and counterexamples. -/
def sampleChunk (cid : String) : ChunkResponse :=
  ⟨cid, "snippet", "summary", [], "doc.pdf", 1, 1⟩

/-- Concrete backend acknowledgement used by witnesses and counterexamples. -/
def sampleResp (uid status : String) (pcs : List ChunkResponse) : UploadResponse :=
  ⟨uid, status, "queued", 2, "1 min", pcs, "PDF", []⟩

/-- Concrete processing status used by witnesses and counterexamples. -/
def sampleStatus (uid : String) (st : JobStatus) : ProcessingStatus :=
  ⟨uid, st, 50, "working", "chunking"⟩

/-- Screen state with a given active set and everything else initial. -/
def screenWith (l : List UploadResponse) : ScreenState :=
  ⟨false, 0, none, [], l, []⟩

/-- Transmission that succeeds with a `"PROCESSING"` acknowledgement. -/
def sampleOk (uid : String) (evs : List ProgressEvent) : FileTransmission :=
  ⟨evs, .ok (sampleResp uid "PROCESSING" [])⟩

/-! ### Basic lemmas about the map and list helpers -/

theorem find?_overwrite_ne (m : List (String × ProcessingStatus))
    {k k' : String} (v : ProcessingStatus) (h : k ≠ k') :
    (m.map (fun p => if p.1 == k' then (k', v) else p)).find? (fun p => p.1 == k)
      = m.find? (fun p => p.1 == k) := by
  induction m with
  | nil => rfl
  | cons p rest ih =>
    simp only [List.map_cons]
    by_cases hp : p.1 = k'
    · have e1 : (p.1 == k') = true := by simpa using hp
      have e2 : (p.1 == k) = false := by
        rw [hp]; exact beq_eq_false_iff_ne.mpr (Ne.symm h)
      have e3 : ((k' : String) == k) = false := beq_eq_false_iff_ne.mpr (Ne.symm h)
      rw [e1, if_pos rfl]
      simp only [List.find?_cons, e2, e3]
      exact ih
    · have e1 : (p.1 == k') = false := by simpa using hp
      rw [e1, if_neg Bool.false_ne_true]
      by_cases hpk : p.1 = k
      · have e2 : (p.1 == k) = true := by simpa using hpk
        simp only [List.find?_cons, e2]
      · have e2 : (p.1 == k) = false := by simpa using hpk
        simp only [List.find?_cons, e2]
        exact ih

theorem statusLookup_mapSet_ne (m : List (String × ProcessingStatus))
    {k k' : String} (v : ProcessingStatus) (h : k ≠ k') :
    statusLookup (mapSet m k' v) k = statusLookup m k := by
  unfold mapSet statusLookup
  by_cases hm : m.any (fun p => p.1 == k')
  · rw [if_pos hm, find?_overwrite_ne m v h]
  · rw [if_neg hm, List.find?_append]
    have e3 : ((k' : String) == k) = false := beq_eq_false_iff_ne.mpr (Ne.symm h)
    simp [List.find?_cons, e3]

theorem removeUpload_sublist (l : List UploadResponse) (uid : String) :
    (removeUpload l uid).Sublist l :=
  List.filter_sublist l

theorem mem_removeUpload_of_ne {l : List UploadResponse} {v : UploadResponse}
    {uid : String} (hv : v ∈ l) (hne : v.upload_id ≠ uid) :
    v ∈ removeUpload l uid := by
  unfold removeUpload
  simp only [List.mem_filter, bne_iff_ne, ne_eq]
  exact ⟨hv, hne⟩

theorem not_mem_ids_removeUpload (l : List UploadResponse) (uid : String) :
    uid ∉ uploadIds (removeUpload l uid) := by
  unfold removeUpload uploadIds
  simp only [List.mem_map, List.mem_filter, bne_iff_ne, ne_eq, not_exists]
  rintro u ⟨⟨-, hne⟩, hid⟩
  exact hne hid

theorem uploadIds_sublist {l₁ l₂ : List UploadResponse}
    (h : l₁.Sublist l₂) : (uploadIds l₁).Sublist (uploadIds l₂) :=
  h.map _

theorem not_mem_ids_of_sublist {l₁ l₂ : List UploadResponse} {uid : String}
    (h : l₁.Sublist l₂) (hm : uid ∉ uploadIds l₂) : uid ∉ uploadIds l₁ :=
  fun hx => hm ((uploadIds_sublist h).subset hx)

/-! ### Case analysis of one poll-loop step -/

theorem tickStep_spec (b : Backend) (u : UploadResponse) (s : ScreenState) :
    (¬ u.status = "PROCESSING" ∧ tickStep b u s = .ok (s, PollTrace.empty)) ∨
    (u.status = "PROCESSING" ∧
      ((∃ e, b.statusFetch u.upload_id = .error e ∧
          tickStep b u s = .error (s, ⟨[u.upload_id], [], []⟩)) ∨
       (∃ st, b.statusFetch u.upload_id = .ok st ∧
         ((st.status = .COMPLETED ∧ ∃ e, b.chunksFetch u.upload_id = .error e ∧
             tickStep b u s = .error
               ({ s with processingStatuses := mapSet s.processingStatuses u.upload_id st },
                ⟨[u.upload_id], [], []⟩)) ∨
          (st.status = .COMPLETED ∧ ∃ cs, b.chunksFetch u.upload_id = .ok cs ∧
             tickStep b u s = .ok
               ({ s with
                   processingStatuses := mapSet s.processingStatuses u.upload_id st,
                   processedChunks := s.processedChunks ++ cs,
                   activeUploads := removeUpload s.activeUploads u.upload_id,
                   uploadSuccess := some true },
                ⟨[u.upload_id], [u.upload_id], []⟩)) ∨
          (st.status = .FAILED ∧
             tickStep b u s = .ok
               ({ s with
                   processingStatuses := mapSet s.processingStatuses u.upload_id st,
                   activeUploads := removeUpload s.activeUploads u.upload_id },
                ⟨[u.upload_id], [], [("Processing Failed", st.message)]⟩)) ∨
          (st.status = .PROCESSING ∧
             tickStep b u s = .ok
               ({ s with processingStatuses := mapSet s.processingStatuses u.upload_id st },
                ⟨[u.upload_id], [], []⟩)))))) := by
  by_cases hst : u.status = "PROCESSING"
  · refine Or.inr ⟨hst, ?_⟩
    cases hf : b.statusFetch u.upload_id with
    | error e => exact Or.inl ⟨e, rfl, by simp [tickStep, hst, hf]⟩
    | ok st =>
      refine Or.inr ⟨st, rfl, ?_⟩
      cases hss : st.status with
      | COMPLETED =>
        cases hc : b.chunksFetch u.upload_id with
        | error e =>
          exact Or.inl ⟨rfl, e, rfl, by simp [tickStep, hst, hf, hss, hc]⟩
        | ok cs =>
          exact Or.inr (Or.inl ⟨rfl, cs, rfl, by simp [tickStep, hst, hf, hss, hc]⟩)
      | FAILED => exact Or.inr (Or.inr (Or.inl ⟨rfl, by simp [tickStep, hst, hf, hss]⟩))
      | PROCESSING =>
        exact Or.inr (Or.inr (Or.inr ⟨rfl, by simp [tickStep, hst, hf, hss]⟩))
  · exact Or.inl ⟨hst, by simp [tickStep, hst]⟩

theorem tickStep_shape {b : Backend} {u : UploadResponse} {s : ScreenState}
    {p : ScreenState × PollTrace}
    (hp : tickStep b u s = .ok p ∨ tickStep b u s = .error p) :
    (p.1.activeUploads = s.activeUploads ∨
       (u.status = "PROCESSING" ∧
        p.1.activeUploads = removeUpload s.activeUploads u.upload_id)) ∧
    (∀ k, k ≠ u.upload_id →
       statusLookup p.1.processingStatuses k = statusLookup s.processingStatuses k) ∧
    (∃ t, p.1.processedChunks = s.processedChunks ++ t) ∧
    (p.2.statusFetches = [] ∨
       (p.2.statusFetches = [u.upload_id] ∧ u.status = "PROCESSING")) ∧
    (p.2.chunkFetches = [] ∨
       (p.2.chunkFetches = [u.upload_id] ∧
        u.upload_id ∉ uploadIds p.1.activeUploads)) ∧
    (∀ a ∈ p.2.alerts, a.1 = "Processing Failed") := by
  rcases tickStep_spec b u s with ⟨hst, he⟩ |
    ⟨hst, ⟨e, -, he⟩ | ⟨st, -,
      ⟨hss, e, -, he⟩ | ⟨hss, cs, hc, he⟩ | ⟨hss, he⟩ | ⟨hss, he⟩⟩⟩ <;>
    rw [he] at hp <;>
    rcases hp with hp | hp <;>
    first
    | exact Except.noConfusion hp
    | (injection hp with hp ; subst hp
       refine ⟨?_, ?_, ?_, ?_, ?_, ?_⟩
       · first
         | exact Or.inl rfl
         | exact Or.inr ⟨hst, rfl⟩
       · intro k hk
         first
         | rfl
         | exact statusLookup_mapSet_ne _ _ hk
       · first
         | exact ⟨[], (List.append_nil _).symm⟩
         | exact ⟨cs, rfl⟩
       · first
         | exact Or.inl rfl
         | exact Or.inr ⟨rfl, hst⟩
       · first
         | exact Or.inl rfl
         | exact Or.inr ⟨rfl, not_mem_ids_removeUpload _ _⟩
       · intro a ha
         first
         | exact absurd ha (List.not_mem_nil a)
         | (simp only [List.mem_singleton] at ha ; rw [ha]))

theorem tickStep_skip_eq {b : Backend} {u : UploadResponse} {s : ScreenState}
    (h : ¬ u.status = "PROCESSING") :
    tickStep b u s = .ok (s, PollTrace.empty) := by
  simp [tickStep, h]

theorem tickStep_statusError_eq {b : Backend} {u : UploadResponse}
    {s : ScreenState} {e : String} (hst : u.status = "PROCESSING")
    (hf : b.statusFetch u.upload_id = .error e) :
    tickStep b u s = .error (s, ⟨[u.upload_id], [], []⟩) := by
  simp [tickStep, hst, hf]

theorem tickStep_completed_eq {b : Backend} {u : UploadResponse}
    {s : ScreenState} {st : ProcessingStatus} {cs : List ChunkResponse}
    (hst : u.status = "PROCESSING")
    (hf : b.statusFetch u.upload_id = .ok st) (hss : st.status = .COMPLETED)
    (hc : b.chunksFetch u.upload_id = .ok cs) :
    tickStep b u s = .ok
      ({ s with
          processingStatuses := mapSet s.processingStatuses u.upload_id st,
          processedChunks := s.processedChunks ++ cs,
          activeUploads := removeUpload s.activeUploads u.upload_id,
          uploadSuccess := some true },
       ⟨[u.upload_id], [u.upload_id], []⟩) := by
  simp [tickStep, hst, hf, hss, hc]

theorem tickStep_error_state {b : Backend} {u : UploadResponse}
    {s : ScreenState} {p : ScreenState × PollTrace}
    (h : tickStep b u s = .error p) :
    p.1.activeUploads = s.activeUploads ∧
    p.1.processedChunks = s.processedChunks ∧
    p.2.chunkFetches = [] ∧ p.2.alerts = [] := by
  rcases tickStep_spec b u s with ⟨-, he⟩ |
    ⟨-, ⟨e, -, he⟩ | ⟨st, -,
      ⟨-, e, -, he⟩ | ⟨-, cs, -, he⟩ | ⟨-, he⟩ | ⟨-, he⟩⟩⟩ <;>
    rw [he] at h <;>
    first
    | exact Except.noConfusion h
    | (injection h with h ; subst h ; exact ⟨rfl, rfl, rfl, rfl⟩)

theorem tickStep_of_commits {b : Backend} {u : UploadResponse}
    (s : ScreenState) (h : stepCommits b u = true) :
    ∃ p, tickStep b u s = .ok p := by
  rcases tickStep_spec b u s with ⟨hst, he⟩ |
    ⟨hst, ⟨e, hf, he⟩ | ⟨st, hf,
      ⟨hss, e, hc, he⟩ | ⟨hss, cs, hc, he⟩ | ⟨hss, he⟩ | ⟨hss, he⟩⟩⟩
  · exact ⟨_, he⟩
  · rw [stepCommits] at h ; simp [hst, hf] at h
  · rw [stepCommits] at h ; simp [hst, hf, hss, hc] at h
  · exact ⟨_, he⟩
  · exact ⟨_, he⟩
  · exact ⟨_, he⟩

/-! ### Lemmas about one tick's loop over the snapshot -/

theorem tickLoopGo_nil (b : Backend) (s : ScreenState) :
    tickLoopGo b [] s = (s, PollTrace.empty) := rfl

theorem tickLoopGo_cons_error {b : Backend} {u : UploadResponse}
    {s : ScreenState} {p : ScreenState × PollTrace}
    (h : tickStep b u s = .error p) (rest : List UploadResponse) :
    tickLoopGo b (u :: rest) s = p := by
  simp [tickLoopGo, h]

theorem tickLoopGo_cons_ok {b : Backend} {u : UploadResponse}
    {s : ScreenState} {s' : ScreenState} {tr : PollTrace}
    (h : tickStep b u s = .ok (s', tr)) (rest : List UploadResponse) :
    tickLoopGo b (u :: rest) s
      = ((tickLoopGo b rest s').1, tr.append (tickLoopGo b rest s').2) := by
  simp [tickLoopGo, h]

theorem tickLoopGo_active_sublist (b : Backend) (l : List UploadResponse)
    (s : ScreenState) :
    (tickLoopGo b l s).1.activeUploads.Sublist s.activeUploads := by
  induction l generalizing s with
  | nil => exact List.Sublist.refl _
  | cons u rest ih =>
    cases h : tickStep b u s with
    | error p =>
      rw [tickLoopGo_cons_error h]
      rw [(tickStep_error_state h).1]
    | ok p =>
      obtain ⟨s', tr⟩ := p
      rw [tickLoopGo_cons_ok h]
      have hstep : s'.activeUploads.Sublist s.activeUploads := by
        rcases (tickStep_shape (Or.inl h)).1 with h1 | ⟨-, h1⟩
        · rw [h1]
        · rw [h1] ; exact removeUpload_sublist _ _
      exact (ih s').trans hstep

theorem tickLoopGo_chunks_extend (b : Backend) (l : List UploadResponse)
    (s : ScreenState) :
    ∃ t, (tickLoopGo b l s).1.processedChunks = s.processedChunks ++ t := by
  induction l generalizing s with
  | nil => exact ⟨[], (List.append_nil _).symm⟩
  | cons u rest ih =>
    cases h : tickStep b u s with
    | error p =>
      rw [tickLoopGo_cons_error h]
      exact ⟨[], by rw [(tickStep_error_state h).2.1, List.append_nil]⟩
    | ok p =>
      obtain ⟨s', tr⟩ := p
      rw [tickLoopGo_cons_ok h]
      obtain ⟨t1, ht1⟩ := (tickStep_shape (Or.inl h)).2.2.1
      obtain ⟨t2, ht2⟩ := ih s'
      exact ⟨t1 ++ t2, by rw [ht2, ht1, List.append_assoc]⟩

theorem tickLoopGo_alerts (b : Backend) (l : List UploadResponse)
    (s : ScreenState) :
    ∀ a ∈ (tickLoopGo b l s).2.alerts, a.1 = "Processing Failed" := by
  induction l generalizing s with
  | nil => intro a ha ; exact absurd ha (List.not_mem_nil a)
  | cons u rest ih =>
    cases h : tickStep b u s with
    | error p =>
      rw [tickLoopGo_cons_error h]
      rw [(tickStep_error_state h).2.2.2]
      intro a ha ; exact absurd ha (List.not_mem_nil a)
    | ok p =>
      obtain ⟨s', tr⟩ := p
      rw [tickLoopGo_cons_ok h]
      intro a ha
      rcases List.mem_append.mp ha with ha | ha
      · exact (tickStep_shape (Or.inl h)).2.2.2.2.2 a ha
      · exact ih s' a ha

theorem tickLoopGo_cache_untouched (b : Backend) (l : List UploadResponse)
    (s : ScreenState) (k : String) (hk : ∀ v ∈ l, v.upload_id ≠ k) :
    statusLookup (tickLoopGo b l s).1.processingStatuses k
      = statusLookup s.processingStatuses k := by
  induction l generalizing s with
  | nil => rfl
  | cons u rest ih =>
    have hku : k ≠ u.upload_id := Ne.symm (hk u (List.mem_cons_self u rest))
    cases h : tickStep b u s with
    | error p =>
      rw [tickLoopGo_cons_error h]
      exact (tickStep_shape (Or.inr h)).2.1 k hku
    | ok p =>
      obtain ⟨s', tr⟩ := p
      rw [tickLoopGo_cons_ok h]
      rw [ih s' (fun v hv => hk v (List.mem_cons_of_mem u hv))]
      exact (tickStep_shape (Or.inl h)).2.1 k hku

theorem tickLoopGo_mem_preserved (b : Backend) (l : List UploadResponse)
    (s : ScreenState) (v : UploadResponse) (hv : v ∈ s.activeUploads)
    (hl : ∀ w ∈ l, w.status = "PROCESSING" → w.upload_id ≠ v.upload_id) :
    v ∈ (tickLoopGo b l s).1.activeUploads := by
  induction l generalizing s with
  | nil => exact hv
  | cons u rest ih =>
    cases h : tickStep b u s with
    | error p =>
      rw [tickLoopGo_cons_error h]
      rw [(tickStep_error_state h).1]
      exact hv
    | ok p =>
      obtain ⟨s', tr⟩ := p
      rw [tickLoopGo_cons_ok h]
      have hv' : v ∈ s'.activeUploads := by
        rcases (tickStep_shape (Or.inl h)).1 with h1 | ⟨hup, h1⟩
        · rw [h1] ; exact hv
        · rw [h1]
          exact mem_removeUpload_of_ne hv
            (fun hid => hl u (List.mem_cons_self u rest) hup hid.symm)
      exact ih s' hv' (fun w hw => hl w (List.mem_cons_of_mem u hw))

theorem tickLoopGo_statusFetches (b : Backend) (l : List UploadResponse)
    (s : ScreenState) :
    ∀ x ∈ (tickLoopGo b l s).2.statusFetches,
      ∃ w ∈ l, x = w.upload_id ∧ w.status = "PROCESSING" := by
  induction l generalizing s with
  | nil => intro x hx ; exact absurd hx (List.not_mem_nil x)
  | cons u rest ih =>
    cases h : tickStep b u s with
    | error p =>
      rw [tickLoopGo_cons_error h]
      intro x hx
      rcases (tickStep_shape (Or.inr h)).2.2.2.1 with h4 | ⟨h4, hup⟩
      · rw [h4] at hx ; exact absurd hx (List.not_mem_nil x)
      · rw [h4] at hx
        simp only [List.mem_singleton] at hx
        exact ⟨u, List.mem_cons_self u rest, hx, hup⟩
    | ok p =>
      obtain ⟨s', tr⟩ := p
      rw [tickLoopGo_cons_ok h]
      intro x hx
      rcases List.mem_append.mp hx with hx | hx
      · rcases (tickStep_shape (Or.inl h)).2.2.2.1 with h4 | ⟨h4, hup⟩
        · rw [h4] at hx ; exact absurd hx (List.not_mem_nil x)
        · rw [h4] at hx
          simp only [List.mem_singleton] at hx
          exact ⟨u, List.mem_cons_self u rest, hx, hup⟩
      · obtain ⟨w, hw, hxw⟩ := ih s' x hx
        exact ⟨w, List.mem_cons_of_mem u hw, hxw⟩

theorem tickLoopGo_chunkFetches (b : Backend) (l : List UploadResponse)
    (s : ScreenState) (hn : (uploadIds l).Nodup) :
    (tickLoopGo b l s).2.chunkFetches.Nodup ∧
    ∀ x ∈ (tickLoopGo b l s).2.chunkFetches,
      (∃ w ∈ l, x = w.upload_id) ∧
      x ∉ uploadIds (tickLoopGo b l s).1.activeUploads := by
  induction l generalizing s with
  | nil =>
    exact ⟨List.nodup_nil, fun x hx => absurd hx (List.not_mem_nil x)⟩
  | cons u rest ih =>
    have hn' : (uploadIds rest).Nodup := (List.nodup_cons.mp hn).2
    have hun : u.upload_id ∉ uploadIds rest := (List.nodup_cons.mp hn).1
    cases h : tickStep b u s with
    | error p =>
      rw [tickLoopGo_cons_error h]
      rw [(tickStep_error_state h).2.2.1]
      exact ⟨List.nodup_nil, fun x hx => absurd hx (List.not_mem_nil x)⟩
    | ok p =>
      obtain ⟨s', tr⟩ := p
      obtain ⟨ihn, ihm⟩ := ih s' hn'
      have h2 : (tickLoopGo b (u :: rest) s).2.chunkFetches
          = tr.chunkFetches ++ (tickLoopGo b rest s').2.chunkFetches := by
        rw [tickLoopGo_cons_ok h] ; try rfl
      have h1 : (tickLoopGo b (u :: rest) s).1 = (tickLoopGo b rest s').1 := by
        rw [tickLoopGo_cons_ok h] ; try rfl
      rw [h1, h2]
      rcases (tickStep_shape (Or.inl h)).2.2.2.2.1 with h5 | ⟨h5, hout⟩
      · rw [h5, List.nil_append]
        refine ⟨ihn, ?_⟩
        intro x hx
        obtain ⟨⟨w, hw, hxw⟩, hna⟩ := ihm x hx
        exact ⟨⟨w, List.mem_cons_of_mem u hw, hxw⟩, hna⟩
      · rw [h5, List.singleton_append]
        constructor
        · refine List.nodup_cons.mpr ⟨?_, ihn⟩
          intro hmem
          obtain ⟨⟨w, hw, hxw⟩, -⟩ := ihm _ hmem
          exact hun (hxw ▸ List.mem_map_of_mem (fun z => z.upload_id) hw)
        · intro x hx
          rcases List.mem_cons.mp hx with hx | hx
          · subst hx
            refine ⟨⟨u, List.mem_cons_self u rest, rfl⟩, ?_⟩
            exact not_mem_ids_of_sublist (tickLoopGo_active_sublist b rest s') hout
          · obtain ⟨⟨w, hw, hxw⟩, hna⟩ := ihm x hx
            exact ⟨⟨w, List.mem_cons_of_mem u hw, hxw⟩, hna⟩

/-! ### Lemmas about one whole tick and tick sequences -/

theorem tick_active_sublist (b : Backend) (s : ScreenState) :
    (tick b s).1.activeUploads.Sublist s.activeUploads := by
  unfold tick
  split
  · exact List.Sublist.refl _
  · exact tickLoopGo_active_sublist b _ s

theorem tick_chunks_extend (b : Backend) (s : ScreenState) :
    ∃ t, (tick b s).1.processedChunks = s.processedChunks ++ t := by
  unfold tick
  split
  · exact ⟨[], (List.append_nil _).symm⟩
  · exact tickLoopGo_chunks_extend b _ s

theorem tick_alerts (b : Backend) (s : ScreenState) :
    ∀ a ∈ (tick b s).2.alerts, a.1 = "Processing Failed" := by
  unfold tick
  split
  · intro a ha ; exact absurd ha (List.not_mem_nil a)
  · exact tickLoopGo_alerts b _ s

theorem tick_cache_untouched (b : Backend) (s : ScreenState) (k : String)
    (hk : ∀ v ∈ s.activeUploads, v.upload_id ≠ k) :
    statusLookup (tick b s).1.processingStatuses k
      = statusLookup s.processingStatuses k := by
  unfold tick
  split
  · rfl
  · exact tickLoopGo_cache_untouched b _ s k hk

theorem tick_mem_preserved (b : Backend) (s : ScreenState)
    (v : UploadResponse) (hv : v ∈ s.activeUploads)
    (hl : ∀ w ∈ s.activeUploads, w.status = "PROCESSING" →
      w.upload_id ≠ v.upload_id) :
    v ∈ (tick b s).1.activeUploads := by
  unfold tick
  split
  · exact hv
  · exact tickLoopGo_mem_preserved b _ s v hv hl

theorem tick_statusFetches (b : Backend) (s : ScreenState) :
    ∀ x ∈ (tick b s).2.statusFetches,
      ∃ w ∈ s.activeUploads, x = w.upload_id ∧ w.status = "PROCESSING" := by
  unfold tick
  split
  · intro x hx ; exact absurd hx (List.not_mem_nil x)
  · exact tickLoopGo_statusFetches b _ s

theorem tick_chunkFetches (b : Backend) (s : ScreenState)
    (hn : (uploadIds s.activeUploads).Nodup) :
    (tick b s).2.chunkFetches.Nodup ∧
    ∀ x ∈ (tick b s).2.chunkFetches,
      x ∈ uploadIds s.activeUploads ∧
      x ∉ uploadIds (tick b s).1.activeUploads := by
  unfold tick
  split
  · exact ⟨List.nodup_nil, fun x hx => absurd hx (List.not_mem_nil x)⟩
  · obtain ⟨h1, h2⟩ := tickLoopGo_chunkFetches b s.activeUploads s hn
    refine ⟨h1, ?_⟩
    intro x hx
    obtain ⟨⟨w, hw, hxw⟩, hna⟩ := h2 x hx
    exact ⟨hxw ▸ List.mem_map_of_mem (fun z => z.upload_id) hw, hna⟩

theorem runTicks_cons (b : Backend) (bs : List Backend) (s : ScreenState) :
    runTicks (b :: bs) s
      = ((runTicks bs (tick b s).1).1,
         (tick b s).2.append (runTicks bs (tick b s).1).2) := rfl

theorem runTicks_active_sublist (bs : List Backend) (s : ScreenState) :
    (runTicks bs s).1.activeUploads.Sublist s.activeUploads := by
  induction bs generalizing s with
  | nil => exact List.Sublist.refl _
  | cons b bs ih =>
    rw [runTicks_cons]
    exact (ih (tick b s).1).trans (tick_active_sublist b s)

theorem runTicks_mem_preserved (bs : List Backend) (s : ScreenState)
    (v : UploadResponse) (hv : v ∈ s.activeUploads)
    (hl : ∀ w ∈ s.activeUploads, w.status = "PROCESSING" →
      w.upload_id ≠ v.upload_id) :
    v ∈ (runTicks bs s).1.activeUploads := by
  induction bs generalizing s with
  | nil => exact hv
  | cons b bs ih =>
    rw [runTicks_cons]
    exact ih (tick b s).1 (tick_mem_preserved b s v hv hl)
      (fun w hw => hl w ((tick_active_sublist b s).subset hw))

theorem runTicks_statusFetches (bs : List Backend) (s : ScreenState) :
    ∀ x ∈ (runTicks bs s).2.statusFetches,
      ∃ w ∈ s.activeUploads, x = w.upload_id ∧ w.status = "PROCESSING" := by
  induction bs generalizing s with
  | nil => intro x hx ; exact absurd hx (List.not_mem_nil x)
  | cons b bs ih =>
    intro x hx
    have hx' : x ∈ (tick b s).2.statusFetches
        ++ (runTicks bs (tick b s).1).2.statusFetches := by
      rw [runTicks_cons] at hx ; exact hx
    rcases List.mem_append.mp hx' with hx1 | hx1
    · exact tick_statusFetches b s x hx1
    · obtain ⟨w, hw, hxw⟩ := ih (tick b s).1 x hx1
      exact ⟨w, (tick_active_sublist b s).subset hw, hxw⟩

theorem runTicks_chunkFetches (bs : List Backend) (s : ScreenState)
    (hn : (uploadIds s.activeUploads).Nodup) :
    (runTicks bs s).2.chunkFetches.Nodup ∧
    ∀ x ∈ (runTicks bs s).2.chunkFetches,
      x ∈ uploadIds s.activeUploads ∧
      x ∉ uploadIds (runTicks bs s).1.activeUploads := by
  induction bs generalizing s with
  | nil =>
    exact ⟨List.nodup_nil, fun x hx => absurd hx (List.not_mem_nil x)⟩
  | cons b bs ih =>
    have hn1 : (uploadIds (tick b s).1.activeUploads).Nodup :=
      (uploadIds_sublist (tick_active_sublist b s)).nodup hn
    obtain ⟨tn, tm⟩ := tick_chunkFetches b s hn
    obtain ⟨rn, rm⟩ := ih (tick b s).1 hn1
    have hsplit : (runTicks (b :: bs) s).2.chunkFetches
        = (tick b s).2.chunkFetches
          ++ (runTicks bs (tick b s).1).2.chunkFetches := by
      rw [runTicks_cons] ; try rfl
    have h1res : (runTicks (b :: bs) s).1 = (runTicks bs (tick b s).1).1 := by
      rw [runTicks_cons]
    constructor
    · rw [hsplit]
      refine tn.append rn ?_
      intro x hx1 hx2
      exact ((tm x hx1).2) ((rm x hx2).1)
    · intro x hx
      rw [hsplit] at hx
      rw [h1res]
      rcases List.mem_append.mp hx with hx1 | hx1
      · obtain ⟨hin, hout⟩ := tm x hx1
        exact ⟨hin, not_mem_ids_of_sublist
          (runTicks_active_sublist bs (tick b s).1) hout⟩
      · obtain ⟨hin, hout⟩ := rm x hx1
        exact ⟨(uploadIds_sublist (tick_active_sublist b s)).subset hin, hout⟩

/-! ### Lemmas about the upload loop -/

theorem progressState_fields (n i : Nat) (f : FileTransmission)
    (s : ScreenState) :
    (progressState n i f s).activeUploads = s.activeUploads ∧
    (progressState n i f s).processedChunks = s.processedChunks ∧
    (progressState n i f s).uploadSuccess = s.uploadSuccess ∧
    (progressState n i f s).uploading = s.uploading ∧
    (progressState n i f s).processingStatuses = s.processingStatuses := by
  unfold progressState
  split <;> exact ⟨rfl, rfl, rfl, rfl, rfl⟩

theorem okResponses_cons_ok {f : FileTransmission} {r : UploadResponse}
    (hr : f.result = .ok r) (l : List FileTransmission) :
    okResponses (f :: l) = r :: okResponses l := by
  simp [okResponses, hr]

theorem previewsOf_ok {f : FileTransmission} {r : UploadResponse}
    (hr : f.result = .ok r) : previewsOf f = r.preview_chunks := by
  simp [previewsOf, hr]

theorem uploadGo_nil_eq (n i : Nat) (acc : List UploadResponse)
    (s : ScreenState) :
    uploadGo n [] i acc s
      = ({ s with activeUploads := acc, uploading := false },
         ⟨[], [],
          [uploadStartedAlert n
            (acc.foldl (fun a u => a + u.total_chunks) 0)]⟩) := rfl

theorem uploadGo_cons_error_eq {f : FileTransmission} {detail : Option String}
    (hr : f.result = .error detail) (n : Nat) (rest : List FileTransmission)
    (i : Nat) (acc : List UploadResponse) (s : ScreenState) :
    uploadGo n (f :: rest) i acc s
      = ({ progressState n i f s with
            uploading := false, uploadSuccess := some false },
         ⟨f.events.map (fileProgress n i), [.reqStart i],
          [uploadErrorAlert detail]⟩) := by
  simp [uploadGo, hr]

theorem uploadGo_cons_ok_eq {f : FileTransmission} {r : UploadResponse}
    (hr : f.result = .ok r) (n : Nat) (rest : List FileTransmission)
    (i : Nat) (acc : List UploadResponse) (s : ScreenState) :
    uploadGo n (f :: rest) i acc s
      = ((uploadGo n rest (i + 1) (acc ++ [r]) (afterFileState n i f r s)).1,
         ⟨(f.events.map (fileProgress n i))
            ++ (uploadGo n rest (i + 1) (acc ++ [r])
                  (afterFileState n i f r s)).2.progressValues,
          .reqStart i :: .reqEnd i ::
            (uploadGo n rest (i + 1) (acc ++ [r])
              (afterFileState n i f r s)).2.events,
          (uploadGo n rest (i + 1) (acc ++ [r])
            (afterFileState n i f r s)).2.alerts⟩) := by
  simp [uploadGo, hr, afterFileState]

theorem afterFileState_fields (n i : Nat) (f : FileTransmission)
    (r : UploadResponse) (s : ScreenState) :
    (afterFileState n i f r s).activeUploads = s.activeUploads ∧
    (afterFileState n i f r s).processedChunks
      = s.processedChunks ++ r.preview_chunks ∧
    (afterFileState n i f r s).uploadSuccess = s.uploadSuccess ∧
    (afterFileState n i f r s).uploading = s.uploading ∧
    (afterFileState n i f r s).processingStatuses = s.processingStatuses := by
  obtain ⟨h1, h2, h3, h4, h5⟩ := progressState_fields n i f s
  exact ⟨h1, by simp [afterFileState, h2], h3, h4, h5⟩

theorem uploadGo_success (n : Nat) (files : List FileTransmission) (i : Nat)
    (acc : List UploadResponse) (s : ScreenState)
    (hok : ∀ f ∈ files, transmits f = true) :
    (uploadGo n files i acc s).1.activeUploads = acc ++ okResponses files ∧
    (uploadGo n files i acc s).1.uploading = false ∧
    (uploadGo n files i acc s).2.events
      = (List.range' i files.length).flatMap
          (fun j => [UploadEvent.reqStart j, UploadEvent.reqEnd j]) := by
  induction files generalizing i acc s with
  | nil =>
    rw [uploadGo_nil_eq]
    exact ⟨by simp [okResponses], rfl, rfl⟩
  | cons f rest ih =>
    have hf := hok f (List.mem_cons_self f rest)
    cases hr : f.result with
    | error d =>
      rw [transmits, hr] at hf
      exact absurd hf (by simp)
    | ok r =>
      have hok' : ∀ g ∈ rest, transmits g = true :=
        fun g hg => hok g (List.mem_cons_of_mem f hg)
      obtain ⟨ih1, ih2, ih3⟩ :=
        ih (i + 1) (acc ++ [r]) (afterFileState n i f r s) hok'
      have e1 : (uploadGo n (f :: rest) i acc s).1.activeUploads
          = (uploadGo n rest (i + 1) (acc ++ [r])
              (afterFileState n i f r s)).1.activeUploads := by
        rw [uploadGo_cons_ok_eq hr]
      have e2 : (uploadGo n (f :: rest) i acc s).1.uploading
          = (uploadGo n rest (i + 1) (acc ++ [r])
              (afterFileState n i f r s)).1.uploading := by
        rw [uploadGo_cons_ok_eq hr]
      have e3 : (uploadGo n (f :: rest) i acc s).2.events
          = UploadEvent.reqStart i :: UploadEvent.reqEnd i ::
            (uploadGo n rest (i + 1) (acc ++ [r])
              (afterFileState n i f r s)).2.events := by
        rw [uploadGo_cons_ok_eq hr]
      refine ⟨?_, ?_, ?_⟩
      · rw [e1, ih1, okResponses_cons_ok hr, List.append_assoc,
          List.singleton_append]
      · rw [e2, ih2]
      · rw [e3, ih3, List.length_cons, List.range'_succ, List.flatMap_cons]
        rfl

theorem uploadGo_failure (n : Nat) (pre : List FileTransmission)
    (f : FileTransmission) (post : List FileTransmission) (i : Nat)
    (acc : List UploadResponse) (s : ScreenState) {detail : Option String}
    (hok : ∀ g ∈ pre, transmits g = true) (hf : f.result = .error detail) :
    (uploadGo n (pre ++ f :: post) i acc s).1.activeUploads = s.activeUploads ∧
    (uploadGo n (pre ++ f :: post) i acc s).1.uploadSuccess = some false ∧
    (uploadGo n (pre ++ f :: post) i acc s).1.uploading = false ∧
    (uploadGo n (pre ++ f :: post) i acc s).2.alerts
      = [uploadErrorAlert detail] ∧
    (uploadGo n (pre ++ f :: post) i acc s).2.events
      = (List.range' i pre.length).flatMap
          (fun j => [UploadEvent.reqStart j, UploadEvent.reqEnd j])
        ++ [UploadEvent.reqStart (i + pre.length)] ∧
    (uploadGo n (pre ++ f :: post) i acc s).1.processedChunks
      = s.processedChunks ++ pre.flatMap previewsOf := by
  induction pre generalizing i acc s with
  | nil =>
    rw [List.nil_append]
    obtain ⟨p1, p2, p3, p4, p5⟩ := progressState_fields n i f s
    have e := uploadGo_cons_error_eq hf n post i acc s
    have eA : (uploadGo n (f :: post) i acc s).1.activeUploads
        = (progressState n i f s).activeUploads := by rw [e]
    have eS : (uploadGo n (f :: post) i acc s).1.uploadSuccess = some false := by
      rw [e]
    have eU : (uploadGo n (f :: post) i acc s).1.uploading = false := by rw [e]
    have eL : (uploadGo n (f :: post) i acc s).2.alerts
        = [uploadErrorAlert detail] := by rw [e]
    have eE : (uploadGo n (f :: post) i acc s).2.events
        = [UploadEvent.reqStart i] := by rw [e]
    have eC : (uploadGo n (f :: post) i acc s).1.processedChunks
        = (progressState n i f s).processedChunks := by rw [e]
    refine ⟨by rw [eA, p1], eS, eU, eL, ?_, by rw [eC, p2] ; simp⟩
    rw [eE] ; simp
  | cons g pre' ih =>
    have hg := hok g (List.mem_cons_self g pre')
    cases hr : g.result with
    | error d =>
      rw [transmits, hr] at hg
      exact absurd hg (by simp)
    | ok r =>
      have hok' : ∀ x ∈ pre', transmits x = true :=
        fun x hx => hok x (List.mem_cons_of_mem g hx)
      obtain ⟨ih1, ih2, ih3, ih4, ih5, ih6⟩ :=
        ih (i + 1) (acc ++ [r]) (afterFileState n i g r s) hok'
      obtain ⟨a1, a2, a3, a4, a5⟩ := afterFileState_fields n i g r s
      rw [List.cons_append]
      have e := uploadGo_cons_ok_eq hr n (pre' ++ f :: post) i acc s
      have eA : (uploadGo n (g :: (pre' ++ f :: post)) i acc s).1.activeUploads
          = (uploadGo n (pre' ++ f :: post) (i + 1) (acc ++ [r])
              (afterFileState n i g r s)).1.activeUploads := by rw [e]
      have eS : (uploadGo n (g :: (pre' ++ f :: post)) i acc s).1.uploadSuccess
          = (uploadGo n (pre' ++ f :: post) (i + 1) (acc ++ [r])
              (afterFileState n i g r s)).1.uploadSuccess := by rw [e]
      have eU : (uploadGo n (g :: (pre' ++ f :: post)) i acc s).1.uploading
          = (uploadGo n (pre' ++ f :: post) (i + 1) (acc ++ [r])
              (afterFileState n i g r s)).1.uploading := by rw [e]
      have eL : (uploadGo n (g :: (pre' ++ f :: post)) i acc s).2.alerts
          = (uploadGo n (pre' ++ f :: post) (i + 1) (acc ++ [r])
              (afterFileState n i g r s)).2.alerts := by rw [e]
      have eE : (uploadGo n (g :: (pre' ++ f :: post)) i acc s).2.events
          = UploadEvent.reqStart i :: UploadEvent.reqEnd i ::
            (uploadGo n (pre' ++ f :: post) (i + 1) (acc ++ [r])
              (afterFileState n i g r s)).2.events := by rw [e]
      have eC : (uploadGo n (g :: (pre' ++ f :: post)) i acc s).1.processedChunks
          = (uploadGo n (pre' ++ f :: post) (i + 1) (acc ++ [r])
              (afterFileState n i g r s)).1.processedChunks := by rw [e]
      have hidx : i + (pre'.length + 1) = i + 1 + pre'.length := by omega
      refine ⟨by rw [eA, ih1, a1], by rw [eS, ih2], by rw [eU, ih3],
        by rw [eL, ih4], ?_, ?_⟩
      · rw [eE, ih5, List.length_cons, List.range'_succ, List.flatMap_cons,
          hidx]
        rfl
      · rw [eC, ih6, a2, List.flatMap_cons, previewsOf_ok hr,
          List.append_assoc]

theorem runUpload_cons_eq (f : FileTransmission)
    (rest : List FileTransmission) (s : ScreenState) :
    runUpload (f :: rest) s
      = uploadGo (f :: rest).length (f :: rest) 0 [] (uploadResetState s) :=
  rfl

theorem uploadResetState_fields (s : ScreenState) :
    (uploadResetState s).processedChunks = [] ∧
    (uploadResetState s).activeUploads = [] ∧
    (uploadResetState s).uploadProgress = 0 ∧
    (uploadResetState s).uploadSuccess = none ∧
    (uploadResetState s).uploading = true :=
  ⟨rfl, rfl, rfl, rfl, rfl⟩

theorem uploadResetState_congr {s₁ s₂ : ScreenState}
    (h : s₁.processingStatuses = s₂.processingStatuses) :
    uploadResetState s₁ = uploadResetState s₂ := by
  cases s₁ ; cases s₂
  simp only [uploadResetState] at *
  simp_all

/-! ### Helper inductions for single-tick claims -/

theorem tickLoopGo_completion (b : Backend) (pre : List UploadResponse)
    (u : UploadResponse) (post : List UploadResponse) (s : ScreenState)
    (st : ProcessingStatus) (cs : List ChunkResponse)
    (hpre : ∀ v ∈ pre, stepCommits b v = true)
    (hst : u.status = "PROCESSING")
    (hf : b.statusFetch u.upload_id = .ok st)
    (hss : st.status = .COMPLETED)
    (hc : b.chunksFetch u.upload_id = .ok cs) :
    u.upload_id ∉ uploadIds (tickLoopGo b (pre ++ u :: post) s).1.activeUploads ∧
    cs <:+: (tickLoopGo b (pre ++ u :: post) s).1.processedChunks := by
  induction pre generalizing s with
  | nil =>
    rw [List.nil_append]
    have he := tickStep_completed_eq (s := s) hst hf hss hc
    have e1 : (tickLoopGo b (u :: post) s).1
        = (tickLoopGo b post
            { s with
              processingStatuses := mapSet s.processingStatuses u.upload_id st,
              processedChunks := s.processedChunks ++ cs,
              activeUploads := removeUpload s.activeUploads u.upload_id,
              uploadSuccess := some true }).1 := by
      rw [tickLoopGo_cons_ok he]
    rw [e1]
    constructor
    · refine not_mem_ids_of_sublist (tickLoopGo_active_sublist b post _) ?_
      exact not_mem_ids_removeUpload _ _
    · obtain ⟨t, ht⟩ := tickLoopGo_chunks_extend b post
        { s with
          processingStatuses := mapSet s.processingStatuses u.upload_id st,
          processedChunks := s.processedChunks ++ cs,
          activeUploads := removeUpload s.activeUploads u.upload_id,
          uploadSuccess := some true }
      rw [ht]
      exact List.infix_append s.processedChunks cs t
  | cons v pre' ih =>
    obtain ⟨p, hp⟩ := tickStep_of_commits s (hpre v (List.mem_cons_self v pre'))
    obtain ⟨s', tr⟩ := p
    have hpre' : ∀ w ∈ pre', stepCommits b w = true :=
      fun w hw => hpre w (List.mem_cons_of_mem v hw)
    have e1 : (tickLoopGo b (v :: (pre' ++ u :: post)) s).1
        = (tickLoopGo b (pre' ++ u :: post) s').1 := by
      rw [tickLoopGo_cons_ok hp]
    rw [List.cons_append, e1]
    exact ih s' hpre'

theorem tickLoopGo_statusError (b : Backend) (pre : List UploadResponse)
    (u : UploadResponse) (post : List UploadResponse) (s : ScreenState)
    {e : String}
    (hpreu : ∀ v ∈ pre, v.upload_id ≠ u.upload_id)
    (hprep : ∀ v ∈ pre, ∀ w ∈ post, v.upload_id ≠ w.upload_id)
    (hst : u.status = "PROCESSING")
    (hf : b.statusFetch u.upload_id = .error e)
    (hu : u ∈ s.activeUploads)
    (hpost : ∀ w ∈ post, w ∈ s.activeUploads) :
    u ∈ (tickLoopGo b (pre ++ u :: post) s).1.activeUploads ∧
    statusLookup (tickLoopGo b (pre ++ u :: post) s).1.processingStatuses
        u.upload_id
      = statusLookup s.processingStatuses u.upload_id ∧
    ∀ w ∈ post, w ∈ (tickLoopGo b (pre ++ u :: post) s).1.activeUploads ∧
      statusLookup (tickLoopGo b (pre ++ u :: post) s).1.processingStatuses
          w.upload_id
        = statusLookup s.processingStatuses w.upload_id := by
  induction pre generalizing s with
  | nil =>
    rw [List.nil_append]
    rw [tickLoopGo_cons_error (tickStep_statusError_eq hst hf) post]
    exact ⟨hu, rfl, fun w hw => ⟨hpost w hw, rfl⟩⟩
  | cons v pre' ih =>
    have hvu : v.upload_id ≠ u.upload_id :=
      hpreu v (List.mem_cons_self v pre')
    have hvw : ∀ w ∈ post, v.upload_id ≠ w.upload_id :=
      hprep v (List.mem_cons_self v pre')
    have hpreu' : ∀ x ∈ pre', x.upload_id ≠ u.upload_id :=
      fun x hx => hpreu x (List.mem_cons_of_mem v hx)
    have hprep' : ∀ x ∈ pre', ∀ w ∈ post, x.upload_id ≠ w.upload_id :=
      fun x hx => hprep x (List.mem_cons_of_mem v hx)
    rw [List.cons_append]
    cases hp : tickStep b v s with
    | error p =>
      rw [tickLoopGo_cons_error hp]
      have hact := (tickStep_error_state hp).1
      have hcache := (tickStep_shape (Or.inr hp)).2.1
      rw [hact]
      exact ⟨hu, hcache u.upload_id (Ne.symm hvu),
        fun w hw => ⟨hpost w hw,
          hcache w.upload_id (Ne.symm (hvw w hw))⟩⟩
    | ok p =>
      obtain ⟨s', tr⟩ := p
      have e1 : (tickLoopGo b (v :: (pre' ++ u :: post)) s).1
          = (tickLoopGo b (pre' ++ u :: post) s').1 := by
        rw [tickLoopGo_cons_ok hp]
      rw [e1]
      have hshape := tickStep_shape (Or.inl hp)
      have hu' : u ∈ s'.activeUploads := by
        rcases hshape.1 with h1 | ⟨-, h1⟩
        · rw [h1] ; exact hu
        · rw [h1] ; exact mem_removeUpload_of_ne hu hvu.symm

      have hpost' : ∀ w ∈ post, w ∈ s'.activeUploads := by
        intro w hw
        rcases hshape.1 with h1 | ⟨-, h1⟩
        · rw [h1] ; exact hpost w hw
        · rw [h1] ; exact mem_removeUpload_of_ne (hpost w hw) (hvw w hw).symm
      obtain ⟨c1, c2, c3⟩ := ih s' hpreu' hprep' hu' hpost'
      refine ⟨c1, ?_, ?_⟩
      · rw [c2] ; exact hshape.2.1 u.upload_id (Ne.symm hvu)
      · intro w hw
        refine ⟨(c3 w hw).1, ?_⟩
        rw [(c3 w hw).2]
        exact hshape.2.1 w.upload_id (Ne.symm (hvw w hw))

theorem tick_eq_of_ne_nil {b : Backend} {s : ScreenState}
    (h : s.activeUploads ≠ []) :
    tick b s = tickLoopGo b s.activeUploads s := by
  unfold tick
  rw [if_neg]
  simp [List.isEmpty_iff, h]

theorem pollerArmed_of_mem {s : ScreenState} {u : UploadResponse}
    (h : u ∈ s.activeUploads) : pollerArmed s = true := by
  unfold pollerArmed
  have := List.ne_nil_of_mem h
  simp [List.isEmpty_iff, this]

/-! ### The claims -/

/-- Claim C5: `COMPLETED` and `FAILED` are absorbing: poller ticks only ever
remove jobs from the active set (each tick's result is a sublist of its
input), so once a job has been retired — as happens when a tick observes it
COMPLETED or FAILED — no subsequent sequence of ticks ever re-adds its
`uploadId` to the active set or moves it to any other state. -/
theorem claim_C5_terminal_states_absorbing (bs : List Backend)
    (s : ScreenState) (uid : String)
    (h : uid ∉ uploadIds s.activeUploads) :
    uid ∉ uploadIds (runTicks bs s).1.activeUploads :=
  not_mem_ids_of_sublist (runTicks_active_sublist bs s) h

theorem claim_C5_witness :
    "retired" ∉ uploadIds (runTicks
      [⟨fun uid => .ok (sampleStatus uid .PROCESSING), fun _ => .ok []⟩,
       ⟨fun uid => .ok (sampleStatus uid .COMPLETED), fun _ => .ok []⟩]
      (screenWith [sampleResp "a" "PROCESSING" []])).1.activeUploads :=
  claim_C5_terminal_states_absorbing _ _ _ (by decide)

/-- Claim C10: a job registered with a backend-assigned initial status
other than exactly "PROCESSING" is never polled by any tick (no
`/upload_status/` GET for its id is ever issued, because the tick's guard
tests the initial `upload.status`, which is never updated), is never
removed from the active set by any sequence of ticks, and its presence
alone keeps the poller's interval armed. -/
theorem claim_C10_non_processing_job_stuck (bs : List Backend)
    (s : ScreenState) (u : UploadResponse) (hu : u ∈ s.activeUploads)
    (hst : u.status ≠ "PROCESSING")
    (hn : (uploadIds s.activeUploads).Nodup) :
    u ∈ (runTicks bs s).1.activeUploads ∧
    u.upload_id ∉ (runTicks bs s).2.statusFetches ∧
    pollerArmed (runTicks bs s).1 = true := by
  have hl : ∀ w ∈ s.activeUploads, w.status = "PROCESSING" →
      w.upload_id ≠ u.upload_id := by
    intro w hw hws hid
    have hwu : w = u := List.inj_on_of_nodup_map hn hw hu hid
    rw [hwu] at hws
    exact hst hws
  have hmem := runTicks_mem_preserved bs s u hu hl
  refine ⟨hmem, ?_, pollerArmed_of_mem hmem⟩
  intro hx
  obtain ⟨w, hw, hxw, hws⟩ := runTicks_statusFetches bs s _ hx
  exact hl w hw hws hxw.symm

theorem claim_C10_witness :
    sampleResp "q" "QUEUED" [] ∈ (runTicks
      [⟨fun uid => .ok (sampleStatus uid .COMPLETED), fun _ => .ok []⟩,
       ⟨fun uid => .ok (sampleStatus uid .COMPLETED), fun _ => .ok []⟩]
      (screenWith [sampleResp "q" "QUEUED" [],
        sampleResp "p" "PROCESSING" []])).1.activeUploads ∧
    "q" ∉ (runTicks
      [⟨fun uid => .ok (sampleStatus uid .COMPLETED), fun _ => .ok []⟩,
       ⟨fun uid => .ok (sampleStatus uid .COMPLETED), fun _ => .ok []⟩]
      (screenWith [sampleResp "q" "QUEUED" [],
        sampleResp "p" "PROCESSING" []])).2.statusFetches ∧
    pollerArmed (runTicks
      [⟨fun uid => .ok (sampleStatus uid .COMPLETED), fun _ => .ok []⟩,
       ⟨fun uid => .ok (sampleStatus uid .COMPLETED), fun _ => .ok []⟩]
      (screenWith [sampleResp "q" "QUEUED" [],
        sampleResp "p" "PROCESSING" []])).1 = true :=
  claim_C10_non_processing_job_stuck _ _ _
    (by decide) (by decide) (by decide)

/-- Claim C7: starting from a state whose active jobs carry pairwise
distinct uploadIds, across any sequence of ticks each job's
`/final_chunks/` response is delivered at most once — the trace of
successful final-chunk fetches has no duplicated uploadId (a job is removed
from the active set in the same update that records its fetched chunks, and
removal is permanent).  Hence the aggregated collection can never contain
two entries with the same chunkId drawn from different final-chunk fetches
of the same job: no job has two such fetches. -/
theorem claim_C7_final_chunks_once (bs : List Backend) (s : ScreenState)
    (hn : (uploadIds s.activeUploads).Nodup) :
    (runTicks bs s).2.chunkFetches.Nodup :=
  (runTicks_chunkFetches bs s hn).1

theorem claim_C7_witness :
    (runTicks
      [⟨fun uid => .ok (sampleStatus uid .COMPLETED),
        fun uid => .ok [sampleChunk uid]⟩,
       ⟨fun uid => .ok (sampleStatus uid .COMPLETED),
        fun uid => .ok [sampleChunk uid]⟩]
      (screenWith [sampleResp "a" "PROCESSING" [],
        sampleResp "b" "PROCESSING" []])).2.chunkFetches.Nodup :=
  claim_C7_final_chunks_once _ _ (by decide)

/-- Claim C4: on a tick whose loop reaches job `u` (no earlier job's step
throws) and fetches status COMPLETED for it, with the final-chunk fetch
succeeding, the fetched chunks are appended to the aggregated chunk
collection in the same atomic update that removes the job from the active
set: after the tick the job is gone from the active set and its final
chunks are a contiguous segment of the aggregated collection, so no
completion is lost between polling and aggregation. -/
theorem claim_C4_completion_chunks_before_removal (b : Backend)
    (s : ScreenState) (pre post : List UploadResponse) (u : UploadResponse)
    (st : ProcessingStatus) (cs : List ChunkResponse)
    (hsplit : s.activeUploads = pre ++ u :: post)
    (hpre : ∀ v ∈ pre, stepCommits b v = true)
    (hst : u.status = "PROCESSING")
    (hf : b.statusFetch u.upload_id = .ok st)
    (hss : st.status = .COMPLETED)
    (hc : b.chunksFetch u.upload_id = .ok cs) :
    u.upload_id ∉ uploadIds (tick b s).1.activeUploads ∧
    cs <:+: (tick b s).1.processedChunks := by
  have hne : s.activeUploads ≠ [] := by
    rw [hsplit] ; cases pre <;> simp
  rw [tick_eq_of_ne_nil hne, hsplit]
  exact tickLoopGo_completion b pre u post s st cs hpre hst hf hss hc

theorem claim_C4_witness :
    "a" ∉ uploadIds (tick
      ⟨fun uid => .ok (sampleStatus uid .COMPLETED),
       fun _ => .ok [sampleChunk "c1"]⟩
      (screenWith [sampleResp "a" "PROCESSING" []])).1.activeUploads ∧
    [sampleChunk "c1"] <:+: (tick
      ⟨fun uid => .ok (sampleStatus uid .COMPLETED),
       fun _ => .ok [sampleChunk "c1"]⟩
      (screenWith [sampleResp "a" "PROCESSING" []])).1.processedChunks :=
  claim_C4_completion_chunks_before_removal
    ⟨fun uid => .ok (sampleStatus uid .COMPLETED),
     fun _ => .ok [sampleChunk "c1"]⟩
    (screenWith [sampleResp "a" "PROCESSING" []]) [] []
    (sampleResp "a" "PROCESSING" []) (sampleStatus "a" .COMPLETED)
    [sampleChunk "c1"]
    rfl (fun v hv => absurd hv (List.not_mem_nil v)) rfl rfl rfl rfl

/-- Claim C3 counterexample: two PROCESSING jobs "a" and "b" are active and
the status fetch for "a" (iterated first) throws.  Because the source wraps
the whole per-tick loop in a single try/catch, the tick issues no
`/upload_status/` GET for "b" (the trace records only "a") and "b"'s cached
status stays empty even though the backend would have answered for it —
refuting the claimed "does not prevent the status fetches for the other
jobs in the same tick". -/
theorem claim_C3_counterexample :
    (tick
      ⟨fun uid => if uid = "a" then .error "network"
        else .ok (sampleStatus uid .PROCESSING),
       fun _ => .ok []⟩
      (screenWith [sampleResp "a" "PROCESSING" [],
        sampleResp "b" "PROCESSING" []])).2.statusFetches = ["a"] ∧
    statusLookup (tick
      ⟨fun uid => if uid = "a" then .error "network"
        else .ok (sampleStatus uid .PROCESSING),
       fun _ => .ok []⟩
      (screenWith [sampleResp "a" "PROCESSING" [],
        sampleResp "b" "PROCESSING" []])).1.processingStatuses "b" = none ∧
    sampleResp "b" "PROCESSING" [] ∈ (tick
      ⟨fun uid => if uid = "a" then .error "network"
        else .ok (sampleStatus uid .PROCESSING),
       fun _ => .ok []⟩
      (screenWith [sampleResp "a" "PROCESSING" [],
        sampleResp "b" "PROCESSING" []])).1.activeUploads := by
  refine ⟨?_, ?_, ?_⟩ <;> decide

/-- Claim C3 amended: a status-fetch error for job `u` during a tick does
not remove `u` (or any job after it) from the active set, does not alter
`u`'s — or any later job's — cached last-known status, produces no alert
(every alert a tick can emit is a "Processing Failed" alert for a FAILED
job; the caught error is only logged), and leaves the poller armed so the
fetch is retried on the next tick.  However — this is the corrected part —
the error aborts the remainder of the tick loop: jobs after `u` in
iteration order are not fetched during that tick. -/
theorem claim_C3_poll_error_isolation (b : Backend) (s : ScreenState)
    (pre post : List UploadResponse) (u : UploadResponse) (e : String)
    (hsplit : s.activeUploads = pre ++ u :: post)
    (hn : (uploadIds s.activeUploads).Nodup)
    (hst : u.status = "PROCESSING")
    (hf : b.statusFetch u.upload_id = .error e) :
    u ∈ (tick b s).1.activeUploads ∧
    statusLookup (tick b s).1.processingStatuses u.upload_id
      = statusLookup s.processingStatuses u.upload_id ∧
    (tick b s).2.alerts.all (fun a => a.1 == "Processing Failed") = true ∧
    pollerArmed (tick b s).1 = true ∧
    ∀ w ∈ post, w ∈ (tick b s).1.activeUploads ∧
      statusLookup (tick b s).1.processingStatuses w.upload_id
        = statusLookup s.processingStatuses w.upload_id := by
  have hne : s.activeUploads ≠ [] := by
    rw [hsplit] ; cases pre <;> simp
  have hids : (uploadIds pre ++ u.upload_id :: uploadIds post).Nodup := by
    have : uploadIds s.activeUploads
        = uploadIds pre ++ u.upload_id :: uploadIds post := by
      rw [hsplit] ; simp [uploadIds]
    rw [this] at hn
    exact hn
  obtain ⟨-, hnr, hdisj⟩ := List.nodup_append.mp hids
  have hpreu : ∀ v ∈ pre, v.upload_id ≠ u.upload_id := by
    intro v hv
    have hvmem : v.upload_id ∈ uploadIds pre :=
      List.mem_map_of_mem (fun z => z.upload_id) hv
    intro hcontra
    exact hdisj hvmem (hcontra ▸ List.mem_cons_self u.upload_id _)
  have hprep : ∀ v ∈ pre, ∀ w ∈ post, v.upload_id ≠ w.upload_id := by
    intro v hv w hw
    have hvmem : v.upload_id ∈ uploadIds pre :=
      List.mem_map_of_mem (fun z => z.upload_id) hv
    have hwmem : w.upload_id ∈ uploadIds post :=
      List.mem_map_of_mem (fun z => z.upload_id) hw
    intro hcontra
    exact hdisj hvmem (hcontra ▸ List.mem_cons_of_mem _ hwmem)
  have hu : u ∈ s.activeUploads := by
    rw [hsplit] ; exact List.mem_append_right pre (List.mem_cons_self u post)
  have hpost : ∀ w ∈ post, w ∈ s.activeUploads := by
    intro w hw
    rw [hsplit]
    exact List.mem_append_right pre (List.mem_cons_of_mem u hw)
  rw [tick_eq_of_ne_nil hne, hsplit]
  obtain ⟨c1, c2, c3⟩ :=
    tickLoopGo_statusError b pre u post s hpreu hprep hst hf hu hpost
  refine ⟨c1, c2, ?_, pollerArmed_of_mem c1, c3⟩
  rw [List.all_eq_true]
  intro a ha
  exact beq_iff_eq.mpr (tickLoopGo_alerts b _ s a ha)

theorem claim_C3_witness :
    sampleResp "a" "PROCESSING" [] ∈ (tick
      ⟨fun uid => if uid = "a" then .error "network"
        else .ok (sampleStatus uid .PROCESSING),
       fun _ => .ok []⟩
      (screenWith [sampleResp "a" "PROCESSING" [],
        sampleResp "b" "PROCESSING" []])).1.activeUploads ∧
    statusLookup (tick
      ⟨fun uid => if uid = "a" then .error "network"
        else .ok (sampleStatus uid .PROCESSING),
       fun _ => .ok []⟩
      (screenWith [sampleResp "a" "PROCESSING" [],
        sampleResp "b" "PROCESSING" []])).1.processingStatuses "a"
      = statusLookup (screenWith [sampleResp "a" "PROCESSING" [],
          sampleResp "b" "PROCESSING" []]).processingStatuses "a" ∧
    (tick
      ⟨fun uid => if uid = "a" then .error "network"
        else .ok (sampleStatus uid .PROCESSING),
       fun _ => .ok []⟩
      (screenWith [sampleResp "a" "PROCESSING" [],
        sampleResp "b" "PROCESSING" []])).2.alerts.all
        (fun a => a.1 == "Processing Failed") = true ∧
    pollerArmed (tick
      ⟨fun uid => if uid = "a" then .error "network"
        else .ok (sampleStatus uid .PROCESSING),
       fun _ => .ok []⟩
      (screenWith [sampleResp "a" "PROCESSING" [],
        sampleResp "b" "PROCESSING" []])).1 = true ∧
    ∀ w ∈ [sampleResp "b" "PROCESSING" []], w ∈ (tick
      ⟨fun uid => if uid = "a" then .error "network"
        else .ok (sampleStatus uid .PROCESSING),
       fun _ => .ok []⟩
      (screenWith [sampleResp "a" "PROCESSING" [],
        sampleResp "b" "PROCESSING" []])).1.activeUploads ∧
      statusLookup (tick
        ⟨fun uid => if uid = "a" then .error "network"
          else .ok (sampleStatus uid .PROCESSING),
         fun _ => .ok []⟩
        (screenWith [sampleResp "a" "PROCESSING" [],
          sampleResp "b" "PROCESSING" []])).1.processingStatuses w.upload_id
        = statusLookup (screenWith [sampleResp "a" "PROCESSING" [],
            sampleResp "b" "PROCESSING" []]).processingStatuses w.upload_id :=
  claim_C3_poll_error_isolation _ _ [] [sampleResp "b" "PROCESSING" []] _ "network"
    rfl (by decide) rfl rfl


theorem runUpload_ne_nil {files : List FileTransmission} (h : files ≠ [])
    (s : ScreenState) :
    runUpload files s
      = uploadGo files.length files 0 [] (uploadResetState s) := by
  obtain ⟨f, rest, rfl⟩ := List.exists_cons_of_ne_nil h
  rfl

/-- Claim C6: for a non-empty batch in which every file transmits
successfully, the upload handler issues exactly one request per selected
file, strictly sequentially in input order — the request trace is
reqStart 0, reqEnd 0, reqStart 1, reqEnd 1, ..., so each file's multipart
request completes before the next file's request begins. -/
theorem claim_C6_sequential_one_request_per_file
    (files : List FileTransmission) (s : ScreenState) (hne : files ≠ [])
    (hok : ∀ f ∈ files, transmits f = true) :
    (runUpload files s).2.events
      = (List.range files.length).flatMap
          (fun j => [UploadEvent.reqStart j, UploadEvent.reqEnd j]) := by
  rw [runUpload_ne_nil hne, (uploadGo_success _ _ _ _ _ hok).2.2,
    List.range_eq_range']

theorem claim_C6_witness :
    (runUpload [sampleOk "u1" [], sampleOk "u2" []] (screenWith [])).2.events
      = (List.range 2).flatMap
          (fun j => [UploadEvent.reqStart j, UploadEvent.reqEnd j]) :=
  claim_C6_sequential_one_request_per_file
    [sampleOk "u1" [], sampleOk "u2" []] (screenWith [])
    (List.cons_ne_nil _ _) (by decide)

/-- Claim C9: starting an upload batch on a non-empty selection resets the
aggregated chunk collection, the active upload set, the batch progress
value and the success flag to their initial values before any request is
sent (`uploadResetState` is the state fed to the per-file loop), and
consequently the whole run is independent of whatever chunks and jobs an
earlier batch had accumulated: two prior states agreeing on the one field
that is not reset (`processingStatuses`) produce identical runs. -/
theorem claim_C9_new_batch_resets_state (files : List FileTransmission)
    (s₁ s₂ : ScreenState) (hne : files ≠ [])
    (h : s₁.processingStatuses = s₂.processingStatuses) :
    runUpload files s₁ = runUpload files s₂ ∧
    (uploadResetState s₁).processedChunks = [] ∧
    (uploadResetState s₁).activeUploads = [] ∧
    (uploadResetState s₁).uploadProgress = 0 ∧
    (uploadResetState s₁).uploadSuccess = none := by
  rw [runUpload_ne_nil hne, runUpload_ne_nil hne, uploadResetState_congr h]
  exact ⟨rfl, rfl, rfl, rfl, rfl⟩

theorem claim_C9_witness :
    runUpload [sampleOk "u1" []]
        ⟨false, 1, some true, [sampleChunk "old"],
         [sampleResp "stale" "PROCESSING" []], []⟩
      = runUpload [sampleOk "u1" []] (screenWith []) ∧
    (uploadResetState ⟨false, 1, some true, [sampleChunk "old"],
        [sampleResp "stale" "PROCESSING" []], []⟩).processedChunks = [] ∧
    (uploadResetState ⟨false, 1, some true, [sampleChunk "old"],
        [sampleResp "stale" "PROCESSING" []], []⟩).activeUploads = [] ∧
    (uploadResetState ⟨false, 1, some true, [sampleChunk "old"],
        [sampleResp "stale" "PROCESSING" []], []⟩).uploadProgress = 0 ∧
    (uploadResetState ⟨false, 1, some true, [sampleChunk "old"],
        [sampleResp "stale" "PROCESSING" []], []⟩).uploadSuccess = none :=
  claim_C9_new_batch_resets_state [sampleOk "u1" []]
    ⟨false, 1, some true, [sampleChunk "old"],
     [sampleResp "stale" "PROCESSING" []], []⟩
    (screenWith []) (List.cons_ne_nil _ _) rfl

/-- Claim C8 counterexample: the registry add performs no duplicate check —
there is no DuplicateJobError anywhere in the code.  If the backend
acknowledges the two files of one batch with the same upload_id "u1", both
jobs are registered without any failure and the active set simultaneously
holds two entries with the same uploadId, refuting both the claimed
`DuplicateJobError` and the claimed pairwise distinctness. -/
theorem claim_C8_counterexample :
    uploadIds (runUpload
      [⟨[], .ok (sampleResp "u1" "PROCESSING" [])⟩,
       ⟨[], .ok (sampleResp "u1" "PROCESSING" [])⟩]
      (screenWith [])).1.activeUploads = ["u1", "u1"] ∧
    ¬ (uploadIds (runUpload
      [⟨[], .ok (sampleResp "u1" "PROCESSING" [])⟩,
       ⟨[], .ok (sampleResp "u1" "PROCESSING" [])⟩]
      (screenWith [])).1.activeUploads).Nodup ∧
    (runUpload
      [⟨[], .ok (sampleResp "u1" "PROCESSING" [])⟩,
       ⟨[], .ok (sampleResp "u1" "PROCESSING" [])⟩]
      (screenWith [])).1.uploadSuccess ≠ some false := by
  refine ⟨?_, ?_, ?_⟩ <;> decide

/-- Claim C8 amended: registering the batch's jobs never fails and performs
no duplicate detection — the registered uploadIds are exactly the
backend-assigned ids of the successful batch, in order.  Distinctness of
the registry's uploadIds therefore holds exactly when the backend-assigned
ids are pairwise distinct (the defensive `DuplicateJobError` described by
the spec does not exist in the code). -/
theorem claim_C8_registry_ids_from_backend (files : List FileTransmission)
    (s : ScreenState) (hne : files ≠ [])
    (hok : ∀ f ∈ files, transmits f = true)
    (hn : (uploadIds (okResponses files)).Nodup) :
    uploadIds (runUpload files s).1.activeUploads
      = uploadIds (okResponses files) ∧
    (uploadIds (runUpload files s).1.activeUploads).Nodup := by
  rw [runUpload_ne_nil hne, (uploadGo_success _ _ _ _ _ hok).1,
    List.nil_append]
  exact ⟨rfl, hn⟩

theorem claim_C8_witness :
    uploadIds (runUpload [sampleOk "u1" [], sampleOk "u2" []]
        (screenWith [])).1.activeUploads
      = uploadIds (okResponses [sampleOk "u1" [], sampleOk "u2" []]) ∧
    (uploadIds (runUpload [sampleOk "u1" [], sampleOk "u2" []]
        (screenWith [])).1.activeUploads).Nodup :=
  claim_C8_registry_ids_from_backend
    [sampleOk "u1" [], sampleOk "u2" []] (screenWith [])
    (List.cons_ne_nil _ _) (by decide) (by decide)

/-- Claim C1 counterexample: a 3-file batch where file 2's transmission
fails.  File 1 was fully uploaded before the failure (its request completed
— reqEnd 0 is in the trace — and its preview chunks were handed over), the
transport error is surfaced with the backend detail, and files 2 and 3 get
no completed upload; but the active registry ends EMPTY — the job of file 1
is not kept registered, because `setActiveUploads(newUploads)` runs only
after the entire batch succeeds.  This refutes "every file already uploaded
before the failure keeps its job registered and active in the registry". -/
theorem claim_C1_counterexample :
    UploadEvent.reqEnd 0 ∈ (runUpload
      [⟨[], .ok (sampleResp "u1" "PROCESSING" [sampleChunk "p1"])⟩,
       ⟨[], .error (some "boom")⟩,
       ⟨[], .ok (sampleResp "u3" "PROCESSING" [])⟩]
      (screenWith [])).2.events ∧
    (runUpload
      [⟨[], .ok (sampleResp "u1" "PROCESSING" [sampleChunk "p1"])⟩,
       ⟨[], .error (some "boom")⟩,
       ⟨[], .ok (sampleResp "u3" "PROCESSING" [])⟩]
      (screenWith [])).1.activeUploads = [] ∧
    (runUpload
      [⟨[], .ok (sampleResp "u1" "PROCESSING" [sampleChunk "p1"])⟩,
       ⟨[], .error (some "boom")⟩,
       ⟨[], .ok (sampleResp "u3" "PROCESSING" [])⟩]
      (screenWith [])).2.alerts = [("Upload Error", "boom")] := by
  refine ⟨?_, ?_, ?_⟩ <;> decide

/-- Claim C1 amended: when the file after `pre` successful transmissions
fails, the remaining files of the batch are not uploaded (the request trace
stops at `reqStart pre.length`), the failure is surfaced exactly once with
the backend-provided detail message when present, otherwise the generic
"Failed to upload and process file" message, and the preview chunks of the
files uploaded before the failure are retained; but — the corrected part —
NO job of the batch is registered in the active set (registration happens
only after the whole batch succeeds), so the files uploaded before the
failure do not keep active jobs and nothing is polled for them. -/
theorem claim_C1_batch_abort_no_registration (pre : List FileTransmission)
    (f : FileTransmission) (post : List FileTransmission) (s : ScreenState)
    (detail : Option String)
    (hok : ∀ g ∈ pre, transmits g = true) (hf : f.result = .error detail) :
    (runUpload (pre ++ f :: post) s).1.activeUploads = [] ∧
    (runUpload (pre ++ f :: post) s).1.uploadSuccess = some false ∧
    (runUpload (pre ++ f :: post) s).1.uploading = false ∧
    (runUpload (pre ++ f :: post) s).2.alerts = [uploadErrorAlert detail] ∧
    (runUpload (pre ++ f :: post) s).2.events
      = (List.range pre.length).flatMap
          (fun j => [UploadEvent.reqStart j, UploadEvent.reqEnd j])
        ++ [UploadEvent.reqStart pre.length] ∧
    (runUpload (pre ++ f :: post) s).1.processedChunks
      = pre.flatMap previewsOf := by
  have hne : pre ++ f :: post ≠ [] := by
    cases pre <;> simp
  rw [runUpload_ne_nil hne]
  obtain ⟨h1, h2, h3, h4, h5, h6⟩ :=
    uploadGo_failure (pre ++ f :: post).length pre f post 0 []
      (uploadResetState s) hok hf
  refine ⟨?_, h2, h3, h4, ?_, ?_⟩
  · rw [h1] ; rfl
  · rw [h5, List.range_eq_range', Nat.zero_add]
  · rw [h6] ; rfl

theorem claim_C1_witness :
    (runUpload
      ([⟨[], .ok (sampleResp "u1" "PROCESSING" [sampleChunk "p1"])⟩]
        ++ ⟨[], .error none⟩ :: [sampleOk "u3" []])
      (screenWith [])).1.activeUploads = [] ∧
    (runUpload
      ([⟨[], .ok (sampleResp "u1" "PROCESSING" [sampleChunk "p1"])⟩]
        ++ ⟨[], .error none⟩ :: [sampleOk "u3" []])
      (screenWith [])).1.uploadSuccess = some false ∧
    (runUpload
      ([⟨[], .ok (sampleResp "u1" "PROCESSING" [sampleChunk "p1"])⟩]
        ++ ⟨[], .error none⟩ :: [sampleOk "u3" []])
      (screenWith [])).1.uploading = false ∧
    (runUpload
      ([⟨[], .ok (sampleResp "u1" "PROCESSING" [sampleChunk "p1"])⟩]
        ++ ⟨[], .error none⟩ :: [sampleOk "u3" []])
      (screenWith [])).2.alerts = [uploadErrorAlert none] ∧
    (runUpload
      ([⟨[], .ok (sampleResp "u1" "PROCESSING" [sampleChunk "p1"])⟩]
        ++ ⟨[], .error none⟩ :: [sampleOk "u3" []])
      (screenWith [])).2.events
      = (List.range 1).flatMap
          (fun j => [UploadEvent.reqStart j, UploadEvent.reqEnd j])
        ++ [UploadEvent.reqStart 1] ∧
    (runUpload
      ([⟨[], .ok (sampleResp "u1" "PROCESSING" [sampleChunk "p1"])⟩]
        ++ ⟨[], .error none⟩ :: [sampleOk "u3" []])
      (screenWith [])).1.processedChunks
      = [⟨[], .ok (sampleResp "u1" "PROCESSING" [sampleChunk "p1"])⟩].flatMap
          previewsOf :=
  claim_C1_batch_abort_no_registration
    [⟨[], .ok (sampleResp "u1" "PROCESSING" [sampleChunk "p1"])⟩]
    ⟨[], .error none⟩ [sampleOk "u3" []] (screenWith []) none
    (by decide) rfl

/-- Claim C2 is violated by the code: with a 2-file batch in which every
file uploads successfully — file 1 finishing at 100 of 100 bytes, file 2
then reporting 10 of 100 and finally 100 of 100 bytes — the aggregate
progress sequence reported by the callback is [1/2, 1/10, 1].  It ends at
1.0 but is NOT monotonically non-decreasing: the source's formula
`(loaded/(total||1)) * ((i+1)/files.length)` rescales from zero at each
file boundary instead of accounting for prior files' completed bytes, so
the reported fraction drops from 1/2 back to 1/10 when file 2 starts. -/
theorem claim_C2_progress_drops_at_file_boundary :
    (runUpload
      [⟨[⟨100, some 100⟩], .ok (sampleResp "u1" "PROCESSING" [])⟩,
       ⟨[⟨10, some 100⟩, ⟨100, some 100⟩],
        .ok (sampleResp "u2" "PROCESSING" [])⟩]
      (screenWith [])).2.progressValues = [1/2, 1/10, 1] ∧
    ¬ List.Chain' (· ≤ ·) ((runUpload
      [⟨[⟨100, some 100⟩], .ok (sampleResp "u1" "PROCESSING" [])⟩,
       ⟨[⟨10, some 100⟩, ⟨100, some 100⟩],
        .ok (sampleResp "u2" "PROCESSING" [])⟩]
      (screenWith [])).2.progressValues) := by
  have h : (runUpload
      [⟨[⟨100, some 100⟩], .ok (sampleResp "u1" "PROCESSING" [])⟩,
       ⟨[⟨10, some 100⟩, ⟨100, some 100⟩],
        .ok (sampleResp "u2" "PROCESSING" [])⟩]
      (screenWith [])).2.progressValues = [1/2, 1/10, 1] := by
    simp [runUpload, uploadGo, fileProgress, jsOrOne]
    norm_num
  refine ⟨h, ?_⟩
  rw [h]
  intro hc
  rw [List.chain'_cons] at hc
  exact absurd hc.1 (by norm_num)


end Quill
